import Mathlib

/-!
Verification of the nl2bash evaluation core (`eval/ast_based.py`,
`eval/extract_rewrites.py`) against its specification.

The Python sources are embedded shallowly: pure string functions become Lean
functions on `String`, the sqlite rewrite table becomes a list of string pairs
(one entry per stored row), command ASTs become a `Node` inductive, and the
external tree-edit-distance engine (the `zss` library) and the bash
parser/renderer collaborators, which are outside the evaluated sources, are
modelled from the specification where noted.
-/

namespace NLBash

/-- Fuel-indexed engine for Python's `str.replace`: replaces every
non-overlapping occurrence of `pat`, scanning left to right.  One fuel unit
is spent per consumed character, so fuel equal to the input length suffices
for any non-empty pattern (all patterns in this development are non-empty). -/
def replaceFuel (pat rep : List Char) : Nat → List Char → List Char
  | _, [] => []
  | 0, s => s
  | Nat.succ n, c :: rest =>
      if pat.isPrefixOf (c :: rest) then
        rep ++ replaceFuel pat rep n (List.drop (pat.length - 1) rest)
      else c :: replaceFuel pat rep n rest

/-- Python's `s.replace(pat, rep)` on strings. -/
def pyreplace (s pat rep : String) : String :=
  String.mk (replaceFuel pat.data rep.data s.data.length s.data)

/-- Python's `s.startswith(p)`. -/
def pystartswith (s p : String) : Bool :=
  p.data.isPrefixOf s.data

/-- Embeds `ignore_differences` from `eval/ast_based.py`: a chain of global
substring replacements applied to a rendered command template before exact
comparison.  The replacement order is that of the source. -/
def ignore_differences (cmd : String) : String :=
  pyreplace (pyreplace (pyreplace (pyreplace (pyreplace cmd "-ls" "")
    "-print" "") "-print0" "") "-name" "-iname") "-regex" "-iregex"

/-- Embeds the string comparison performed by `template_match` / `one_match`
in `eval/ast_based.py` on the two rendered templates: equality after
`ignore_differences` normalization.  Rendering itself (`ast2template`) is the
out-of-scope parser collaborator; this function receives the rendered
template strings directly. -/
def template_match_rendered (t1 t2 : String) : Bool :=
  ignore_differences t1 = ignore_differences t2

/-- The dictionary key `s1 + ":::" + s2` built by `local_dist`. -/
def pair_key (s1 s2 : String) : String :=
  s1 ++ ":::" ++ s2

/-- Embeds `local_dist` from `eval/ast_based.py`.  The Python function builds
the key `s1 + ":::" + s2` and looks it up in a dictionary whose 18 entries all
map to 0; on a miss it falls back to equality, then to the argument-skipping
rule, then to cost 1.  The dictionary lookup is embedded as the corresponding
chain of key comparisons. -/
def local_dist (s1 s2 : String) (skip_argument : Bool) : Nat :=
  if pair_key s1 s2 = "FLAG_-ls:::" then 0
  else if pair_key s1 s2 = ":::FLAG_-ls" then 0
  else if pair_key s1 s2 = "FLAG_-print:::" then 0
  else if pair_key s1 s2 = ":::FLAG_-print" then 0
  else if pair_key s1 s2 = "FLAG_-print0:::" then 0
  else if pair_key s1 s2 = ":::FLAG_-print0" then 0
  else if pair_key s1 s2 = "FLAG_-name:::FLAG_-iname" then 0
  else if pair_key s1 s2 = "FLAG_-iname:::FLAG_-name" then 0
  else if pair_key s1 s2 = "FLAG_-regex:::FLAG_-iregex" then 0
  else if pair_key s1 s2 = "FLAG_-iregex:::FLAG_-regex" then 0
  else if pair_key s1 s2 = "FLAG_-name:::FLAG_-regex" then 0
  else if pair_key s1 s2 = "FLAG_-regex:::FLAG_-name" then 0
  else if pair_key s1 s2 = "FLAG_-name:::FLAG_-iregex" then 0
  else if pair_key s1 s2 = "FLAG_-iregex:::FLAG_-name" then 0
  else if pair_key s1 s2 = "FLAG_-iname:::FLAG_-regex" then 0
  else if pair_key s1 s2 = "FLAG_-regex:::FLAG_-iname" then 0
  else if pair_key s1 s2 = "FLAG_-iname:::FLAG_-iregex" then 0
  else if pair_key s1 s2 = "FLAG_-iregex:::FLAG_-iname" then 0
  else if s1 = s2 then 0
  else if pystartswith s1 "ARGUMENT_" && pystartswith s2 "ARGUMENT_" && skip_argument then 0
  else 1

/-- The spec's ignorable-flag set (spec section 4.2), with the `FLAG_` label
prefix used by the tree labels. -/
def ignorableFlags : List String :=
  ["FLAG_-ls", "FLAG_-print", "FLAG_-print0"]

/-- The spec's synonym table (spec section 4.2): all six unordered
combinations over the four name/regex flags, in both directions. -/
def synonymPairs : List (String × String) :=
  [("FLAG_-name", "FLAG_-iname"), ("FLAG_-iname", "FLAG_-name"),
   ("FLAG_-regex", "FLAG_-iregex"), ("FLAG_-iregex", "FLAG_-regex"),
   ("FLAG_-name", "FLAG_-regex"), ("FLAG_-regex", "FLAG_-name"),
   ("FLAG_-name", "FLAG_-iregex"), ("FLAG_-iregex", "FLAG_-name"),
   ("FLAG_-iname", "FLAG_-regex"), ("FLAG_-regex", "FLAG_-iname"),
   ("FLAG_-iname", "FLAG_-iregex"), ("FLAG_-iregex", "FLAG_-iname")]

/-- The cost table exactly as the spec (section 4.2) words it: 0 for equal
labels, 0 when one side is empty and the other ignorable, 0 for synonym
pairs, 0 for two argument labels under skip-argument mode, 1 otherwise.
This is the spec-side definition used to state the refinement of
`local_dist`. -/
def costSpec (s1 s2 : String) (skip_argument : Bool) : Nat :=
  if s1 = s2 then 0
  else if (s1 = "" ∧ s2 ∈ ignorableFlags) ∨ (s2 = "" ∧ s1 ∈ ignorableFlags) then 0
  else if (s1, s2) ∈ synonymPairs then 0
  else if pystartswith s1 "ARGUMENT_" && pystartswith s2 "ARGUMENT_" && skip_argument then 0
  else 1

theorem colonFreeHead (l1 l2 A B : List Char)
    (h1 : ∀ c ∈ l1, c ≠ ':') (hA : ∀ c ∈ A, c ≠ ':')
    (h : l1 ++ ':' :: l2 = A ++ ':' :: B) : l1 = A ∧ l2 = B := by
  induction l1 generalizing A with
  | nil =>
    cases A with
    | nil => simpa using h
    | cons a A' =>
      exfalso
      simp only [List.nil_append, List.cons_append, List.cons.injEq] at h
      exact hA a (by simp) h.1.symm
  | cons c l1' ih =>
    cases A with
    | nil =>
      exfalso
      simp only [List.nil_append, List.cons_append, List.cons.injEq] at h
      exact h1 c (by simp) h.1
    | cons a A' =>
      simp only [List.cons_append, List.cons.injEq] at h
      obtain ⟨hca, htl⟩ := h
      have hrec := ih A' (fun x hx => h1 x (by simp [hx]))
        (fun x hx => hA x (by simp [hx])) htl
      exact ⟨by simp [hca, hrec.1], hrec.2⟩

theorem keyDecomp (s1 s2 A B : String)
    (hA : A.data.count ':' = 0) (hB : B.data.count ':' = 0)
    (h : pair_key s1 s2 = pair_key A B) : s1 = A ∧ s2 = B := by
  have hd : s1.data ++ ':' :: (':' :: ':' :: s2.data)
      = A.data ++ ':' :: (':' :: ':' :: B.data) := by
    have := congrArg String.data h
    simpa [pair_key, String.data_append] using this
  have hcount := congrArg (fun l => l.count ':') hd
  simp [List.count_append, List.count_cons] at hcount
  have hs1 : s1.data.count ':' = 0 := by omega
  have hfree1 : ∀ c ∈ s1.data, c ≠ ':' := by
    intro c hc hceq
    subst hceq
    exact (List.count_eq_zero.mp hs1) hc
  have hfreeA : ∀ c ∈ A.data, c ≠ ':' := by
    intro c hc hceq
    subst hceq
    exact (List.count_eq_zero.mp hA) hc
  have hmain := colonFreeHead s1.data (':' :: ':' :: s2.data) A.data (':' :: ':' :: B.data)
    hfree1 hfreeA hd
  refine ⟨String.ext hmain.1, String.ext ?_⟩
  have h2 := hmain.2
  simpa using h2

theorem costSpec_zero_of_key (s1 s2 A B : String) (skip : Bool)
    (hA : A.data.count ':' = 0) (hB : B.data.count ':' = 0)
    (hz : ∀ sk : Bool, costSpec A B sk = 0)
    (h : pair_key s1 s2 = pair_key A B) :
    0 = costSpec s1 s2 skip := by
  obtain ⟨e1, e2⟩ := keyDecomp s1 s2 A B hA hB h
  subst e1
  subst e2
  exact (hz skip).symm

/-- The scored dictionary of `local_dist` agrees with the spec's cost table
on every input: this is the workhorse behind claim C4. -/
theorem local_dist_eq_costSpec (s1 s2 : String) (skip : Bool) :
    local_dist s1 s2 skip = costSpec s1 s2 skip := by
  unfold local_dist
  by_cases hk1 : pair_key s1 s2 = "FLAG_-ls:::"
  · rw [if_pos hk1]
    exact costSpec_zero_of_key s1 s2 "FLAG_-ls" "" skip (by decide) (by decide)
      (fun sk => by cases sk <;> decide) (hk1.trans (by decide))
  rw [if_neg hk1]
  by_cases hk2 : pair_key s1 s2 = ":::FLAG_-ls"
  · rw [if_pos hk2]
    exact costSpec_zero_of_key s1 s2 "" "FLAG_-ls" skip (by decide) (by decide)
      (fun sk => by cases sk <;> decide) (hk2.trans (by decide))
  rw [if_neg hk2]
  by_cases hk3 : pair_key s1 s2 = "FLAG_-print:::"
  · rw [if_pos hk3]
    exact costSpec_zero_of_key s1 s2 "FLAG_-print" "" skip (by decide) (by decide)
      (fun sk => by cases sk <;> decide) (hk3.trans (by decide))
  rw [if_neg hk3]
  by_cases hk4 : pair_key s1 s2 = ":::FLAG_-print"
  · rw [if_pos hk4]
    exact costSpec_zero_of_key s1 s2 "" "FLAG_-print" skip (by decide) (by decide)
      (fun sk => by cases sk <;> decide) (hk4.trans (by decide))
  rw [if_neg hk4]
  by_cases hk5 : pair_key s1 s2 = "FLAG_-print0:::"
  · rw [if_pos hk5]
    exact costSpec_zero_of_key s1 s2 "FLAG_-print0" "" skip (by decide) (by decide)
      (fun sk => by cases sk <;> decide) (hk5.trans (by decide))
  rw [if_neg hk5]
  by_cases hk6 : pair_key s1 s2 = ":::FLAG_-print0"
  · rw [if_pos hk6]
    exact costSpec_zero_of_key s1 s2 "" "FLAG_-print0" skip (by decide) (by decide)
      (fun sk => by cases sk <;> decide) (hk6.trans (by decide))
  rw [if_neg hk6]
  by_cases hk7 : pair_key s1 s2 = "FLAG_-name:::FLAG_-iname"
  · rw [if_pos hk7]
    exact costSpec_zero_of_key s1 s2 "FLAG_-name" "FLAG_-iname" skip (by decide) (by decide)
      (fun sk => by cases sk <;> decide) (hk7.trans (by decide))
  rw [if_neg hk7]
  by_cases hk8 : pair_key s1 s2 = "FLAG_-iname:::FLAG_-name"
  · rw [if_pos hk8]
    exact costSpec_zero_of_key s1 s2 "FLAG_-iname" "FLAG_-name" skip (by decide) (by decide)
      (fun sk => by cases sk <;> decide) (hk8.trans (by decide))
  rw [if_neg hk8]
  by_cases hk9 : pair_key s1 s2 = "FLAG_-regex:::FLAG_-iregex"
  · rw [if_pos hk9]
    exact costSpec_zero_of_key s1 s2 "FLAG_-regex" "FLAG_-iregex" skip (by decide) (by decide)
      (fun sk => by cases sk <;> decide) (hk9.trans (by decide))
  rw [if_neg hk9]
  by_cases hk10 : pair_key s1 s2 = "FLAG_-iregex:::FLAG_-regex"
  · rw [if_pos hk10]
    exact costSpec_zero_of_key s1 s2 "FLAG_-iregex" "FLAG_-regex" skip (by decide) (by decide)
      (fun sk => by cases sk <;> decide) (hk10.trans (by decide))
  rw [if_neg hk10]
  by_cases hk11 : pair_key s1 s2 = "FLAG_-name:::FLAG_-regex"
  · rw [if_pos hk11]
    exact costSpec_zero_of_key s1 s2 "FLAG_-name" "FLAG_-regex" skip (by decide) (by decide)
      (fun sk => by cases sk <;> decide) (hk11.trans (by decide))
  rw [if_neg hk11]
  by_cases hk12 : pair_key s1 s2 = "FLAG_-regex:::FLAG_-name"
  · rw [if_pos hk12]
    exact costSpec_zero_of_key s1 s2 "FLAG_-regex" "FLAG_-name" skip (by decide) (by decide)
      (fun sk => by cases sk <;> decide) (hk12.trans (by decide))
  rw [if_neg hk12]
  by_cases hk13 : pair_key s1 s2 = "FLAG_-name:::FLAG_-iregex"
  · rw [if_pos hk13]
    exact costSpec_zero_of_key s1 s2 "FLAG_-name" "FLAG_-iregex" skip (by decide) (by decide)
      (fun sk => by cases sk <;> decide) (hk13.trans (by decide))
  rw [if_neg hk13]
  by_cases hk14 : pair_key s1 s2 = "FLAG_-iregex:::FLAG_-name"
  · rw [if_pos hk14]
    exact costSpec_zero_of_key s1 s2 "FLAG_-iregex" "FLAG_-name" skip (by decide) (by decide)
      (fun sk => by cases sk <;> decide) (hk14.trans (by decide))
  rw [if_neg hk14]
  by_cases hk15 : pair_key s1 s2 = "FLAG_-iname:::FLAG_-regex"
  · rw [if_pos hk15]
    exact costSpec_zero_of_key s1 s2 "FLAG_-iname" "FLAG_-regex" skip (by decide) (by decide)
      (fun sk => by cases sk <;> decide) (hk15.trans (by decide))
  rw [if_neg hk15]
  by_cases hk16 : pair_key s1 s2 = "FLAG_-regex:::FLAG_-iname"
  · rw [if_pos hk16]
    exact costSpec_zero_of_key s1 s2 "FLAG_-regex" "FLAG_-iname" skip (by decide) (by decide)
      (fun sk => by cases sk <;> decide) (hk16.trans (by decide))
  rw [if_neg hk16]
  by_cases hk17 : pair_key s1 s2 = "FLAG_-iname:::FLAG_-iregex"
  · rw [if_pos hk17]
    exact costSpec_zero_of_key s1 s2 "FLAG_-iname" "FLAG_-iregex" skip (by decide) (by decide)
      (fun sk => by cases sk <;> decide) (hk17.trans (by decide))
  rw [if_neg hk17]
  by_cases hk18 : pair_key s1 s2 = "FLAG_-iregex:::FLAG_-iname"
  · rw [if_pos hk18]
    exact costSpec_zero_of_key s1 s2 "FLAG_-iregex" "FLAG_-iname" skip (by decide) (by decide)
      (fun sk => by cases sk <;> decide) (hk18.trans (by decide))
  rw [if_neg hk18]
  by_cases heq : s1 = s2
  · rw [if_pos heq]
    subst heq
    simp [costSpec]
  rw [if_neg heq]
  by_cases harg : (pystartswith s1 "ARGUMENT_" && pystartswith s2 "ARGUMENT_" && skip) = true
  · rw [if_pos harg]
    have hsplit := harg
    simp only [Bool.and_eq_true] at hsplit
    obtain ⟨⟨ha1, ha2⟩, hsk⟩ := hsplit
    have hne1 : s1 ≠ "" := by
      intro e
      subst e
      exact absurd ha1 (by decide)
    have hne2 : s2 ≠ "" := by
      intro e
      subst e
      exact absurd ha2 (by decide)
    have hnig : ¬((s1 = "" ∧ s2 ∈ ignorableFlags) ∨ (s2 = "" ∧ s1 ∈ ignorableFlags)) := by
      rintro (⟨e, _⟩ | ⟨e, _⟩)
      · exact hne1 e
      · exact hne2 e
    have hnsyn : (s1, s2) ∉ synonymPairs := by
      intro hmem
      simp only [synonymPairs, List.mem_cons, List.not_mem_nil, or_false,
        Prod.mk.injEq] at hmem
      rcases hmem with ⟨e1, e2⟩ | ⟨e1, e2⟩ | ⟨e1, e2⟩ | ⟨e1, e2⟩ | ⟨e1, e2⟩ | ⟨e1, e2⟩ |
        ⟨e1, e2⟩ | ⟨e1, e2⟩ | ⟨e1, e2⟩ | ⟨e1, e2⟩ | ⟨e1, e2⟩ | ⟨e1, e2⟩ <;>
        (subst e1; exact absurd ha1 (by decide))
    rw [costSpec, if_neg heq, if_neg hnig, if_neg hnsyn, if_pos harg]
  rw [if_neg harg]
  have hnig : ¬((s1 = "" ∧ s2 ∈ ignorableFlags) ∨ (s2 = "" ∧ s1 ∈ ignorableFlags)) := by
    rintro (⟨e1, e2⟩ | ⟨e1, e2⟩)
    · subst e1
      simp only [ignorableFlags, List.mem_cons, List.not_mem_nil, or_false] at e2
      rcases e2 with e2 | e2 | e2 <;> subst e2
      · exact hk2 (by decide)
      · exact hk4 (by decide)
      · exact hk6 (by decide)
    · subst e1
      simp only [ignorableFlags, List.mem_cons, List.not_mem_nil, or_false] at e2
      rcases e2 with e2 | e2 | e2 <;> subst e2
      · exact hk1 (by decide)
      · exact hk3 (by decide)
      · exact hk5 (by decide)
  have hnsyn : (s1, s2) ∉ synonymPairs := by
    intro hmem
    simp only [synonymPairs, List.mem_cons, List.not_mem_nil, or_false,
      Prod.mk.injEq] at hmem
    rcases hmem with ⟨e1, e2⟩ | ⟨e1, e2⟩ | ⟨e1, e2⟩ | ⟨e1, e2⟩ | ⟨e1, e2⟩ | ⟨e1, e2⟩ |
      ⟨e1, e2⟩ | ⟨e1, e2⟩ | ⟨e1, e2⟩ | ⟨e1, e2⟩ | ⟨e1, e2⟩ | ⟨e1, e2⟩ <;> (subst e1; subst e2)
    · exact hk7 (by decide)
    · exact hk8 (by decide)
    · exact hk9 (by decide)
    · exact hk10 (by decide)
    · exact hk11 (by decide)
    · exact hk12 (by decide)
    · exact hk13 (by decide)
    · exact hk14 (by decide)
    · exact hk15 (by decide)
    · exact hk16 (by decide)
    · exact hk17 (by decide)
    · exact hk18 (by decide)
  rw [costSpec, if_neg heq, if_neg hnig, if_neg hnsyn, if_neg harg]

/-- Modelled from the spec: the AST node contract of section 3 / 4.1 (the
`nast.Node` collaborator class, outside the evaluated sources).  A node
carries its comparison label (`Label(node)`, the kind+value string used by
the cost function) and its ordered list of children (`Children(node)`). -/
inductive Node where
  | mk (label : String) (children : List Node)

/-- `Label(node)`: the comparison key of a node. -/
def Node.label : Node → String
  | .mk l _ => l

/-- `Children(node)`: the ordered child list of a node. -/
def Node.children : Node → List Node
  | .mk _ cs => cs

mutual

/-- Number of nodes in a tree (termination measure for the TED engine). -/
def Node.size : Node → Nat
  | .mk _ cs => 1 + sizeF cs

/-- Number of nodes in a forest. -/
def sizeF : List Node → Nat
  | [] => 0
  | t :: l => Node.size t + sizeF l

end

theorem sizeF_append (a b : List Node) : sizeF (a ++ b) = sizeF a + sizeF b := by
  induction a with
  | nil => simp [sizeF]
  | cons t l ih => simp [sizeF, ih]; omega

theorem size_eq (t : Node) : t.size = 1 + sizeF t.children := by
  cases t
  rfl

/-- Modelled from the spec: the ordered-forest edit distance underlying the
TED engine of section 4.3 (the `zss.simple_distance` library call made by
`str_dist` / `temp_dist`, outside the evaluated sources).  `fdist skip F1 F2`
is the minimum total cost of relabels, deletions and insertions turning
forest `F1` into forest `F2`, with the relabel cost given by `local_dist`
and, exactly as in the engine's contract, deletion of a node labelled `a`
costing `local_dist a ""` and insertion of a node labelled `b` costing
`local_dist "" b`. -/
def fdist (skip : Bool) : List Node → List Node → Nat
  | [], [] => 0
  | t :: l, [] =>
      local_dist t.label "" skip + fdist skip (t.children ++ l) []
  | [], t :: l =>
      local_dist "" t.label skip + fdist skip [] (t.children ++ l)
  | t1 :: l1, t2 :: l2 =>
      min (local_dist t1.label "" skip + fdist skip (t1.children ++ l1) (t2 :: l2))
        (min (local_dist "" t2.label skip + fdist skip (t1 :: l1) (t2.children ++ l2))
          (local_dist t1.label t2.label skip + fdist skip t1.children t2.children +
            fdist skip l1 l2))
termination_by F1 F2 => sizeF F1 + sizeF F2
decreasing_by
  all_goals simp [sizeF_append, sizeF, size_eq]
  all_goals omega

/-- Embeds `str_dist` from `eval/ast_based.py`: tree edit distance between
two trees under the surface cost function (`str_local_dist`, i.e.
`local_dist` without argument skipping). -/
def str_dist (t1 t2 : Node) : Nat :=
  fdist false [t1] [t2]

/-- Embeds `temp_dist` from `eval/ast_based.py`: tree edit distance between
two trees under the template cost function (`temp_local_dist`, i.e.
`local_dist` with `skip_argument=True`). -/
def temp_dist (t1 t2 : Node) : Nat :=
  fdist true [t1] [t2]

theorem local_dist_self (s : String) (skip : Bool) : local_dist s s skip = 0 := by
  rw [local_dist_eq_costSpec]
  simp [costSpec]

theorem fdist_self_aux (skip : Bool) :
    ∀ n F, sizeF F ≤ n → fdist skip F F = 0 := by
  intro n
  induction n with
  | zero =>
    intro F hF
    cases F with
    | nil => rw [fdist]
    | cons t l =>
      exfalso
      simp [sizeF, size_eq t] at hF
  | succ n ih =>
    intro F hF
    cases F with
    | nil => rw [fdist]
    | cons t l =>
      have hsz : sizeF (t :: l) = 1 + sizeF t.children + sizeF l := by
        simp [sizeF, size_eq t]
      have hch : sizeF t.children ≤ n := by omega
      have hl : sizeF l ≤ n := by omega
      have hunfold : fdist skip (t :: l) (t :: l)
          = min (local_dist t.label "" skip + fdist skip (t.children ++ l) (t :: l))
              (min (local_dist "" t.label skip + fdist skip (t :: l) (t.children ++ l))
                (local_dist t.label t.label skip + fdist skip t.children t.children +
                  fdist skip l l)) := by
        rw [fdist]
      rw [hunfold, local_dist_self, ih t.children hch, ih l hl]
      simp

theorem fdist_self (skip : Bool) (F : List Node) : fdist skip F F = 0 :=
  fdist_self_aux skip (sizeF F) F le_rfl

/-- Modelled from the spec: the collaborator `Parse` of section 4.1
(`data_tools.bash_parser` / `normalizer.normalize_ast`, outside the
evaluated sources), which turns a command or template string into a tree or
fails.  Modelled as producing a root node whose children are the
whitespace-separated tokens of the command, failing on the empty string. -/
def parseCmd (s : String) : Option Node :=
  if s = "" then none
  else some (.mk "root" (((s.splitOn " ").filter (fun t => t ≠ "")).map (fun t => .mk t [])))

/-- The fixed fallback tree of `min_dist` (`data_tools.bash_parser("find")`,
spec section 4.7): the parse of the minimal placeholder command `find`. -/
def findTree : Node :=
  match parseCmd "find" with
  | some t => t
  | none => .mk "root" []

mutual

/-- Labels of a tree in document order (for the rendering model). -/
def renderNode : Node → List String
  | .mk l cs => l :: renderF cs

/-- Labels of a forest in document order. -/
def renderF : List Node → List String
  | [] => []
  | t :: ts => renderNode t ++ renderF ts

end

/-- Modelled from the spec: the collaborator `Render(tree, mode)` of
section 4.1 (`data_tools.ast2template`, outside the evaluated sources),
rendering a tree as its template string; modelled as joining node labels in
document order. -/
def ast2template (t : Node) : String :=
  String.intercalate " " (renderNode t)

/-- Modelled from the spec (section 4.6): the synthesis step of
`rewrite(ast, temp)` in `eval/extract_rewrites.py`.  The target template is
parsed into a skeleton via the collaborator parser (`normalize_ast`),
returning `none` when the target fails to parse — the `None` guard that
`get_rewrites` checks.  Argument-slot refilling transfers literal argument
values, which the template-level trees of this model do not carry, so the
filled skeleton is the parsed skeleton itself. -/
def rewriteAst (ast : Node) (temp : String) : Option Node :=
  parseCmd temp

/-- Embeds `DBConnection.get_rewrites` from `eval/extract_rewrites.py`: the
result set starts as `set([ast])`, and for every stored row `(s1, s2)` with
`s1` equal to the rendered template of `ast`, the synthesized tree
`rewrite(ast, s2)` is added when it is not `None`.  `db` is the list of
stored rows of the `Rewrites` table. -/
def db_get_rewrites (db : List (String × String)) (ast : Node) : List Node :=
  ast :: ((db.filter (fun r => r.1 = ast2template ast)).filterMap
    (fun r => rewriteAst ast r.2))

/-- Embeds `get_rewrites` from `eval/ast_based.py`: the union over all
reference trees of `db.get_rewrites(ast)`. -/
def get_rewrites_union (db : List (String × String)) (asts : List Node) : List Node :=
  asts.foldl (fun acc a => acc ++ db_get_rewrites db a) []

/-- `sys.maxint` of the reference Python 2 runtime on a 64-bit build, the
initial value of the running minimum in `min_dist`. -/
def sys_maxint : Nat :=
  2 ^ 63 - 1

/-- The per-candidate distance of `min_dist`: `temp_dist` when
`ignore_arg_value` else `str_dist`. -/
def dist_for (ignore_arg_value : Bool) (a1 a2 : Node) : Nat :=
  if ignore_arg_value then temp_dist a1 a2 else str_dist a1 a2

/-- The running-minimum loop of `min_dist`: fold a strict-improvement update
over the candidate list starting from `init`. -/
def runMin (f : α → Nat) (l : List α) (init : Nat) : Nat :=
  l.foldl (fun m a => if f a < m then f a else m) init

/-- The candidate set of `min_dist`: the rewrite expansion of the references
when `rewrite` is set, else the references alone. -/
def candidates (db : List (String × String)) (asts : List Node) (rewrite : Bool) :
    List Node :=
  if rewrite then get_rewrites_union db asts else asts

/-- Embeds `min_dist` from `eval/ast_based.py`.  A falsy (`None`, i.e.
unparsable) prediction is replaced by the fallback tree `bash_parser("find")`;
the candidate references are optionally expanded through the rewrite store;
the result is the minimum candidate distance, starting from `sys.maxint`. -/
def min_dist (db : List (String × String)) (asts : List Node) (ast2opt : Option Node)
    (rewrite : Bool) (ignore_arg_value : Bool) : Nat :=
  runMin
    (fun a1 =>
      dist_for ignore_arg_value a1
        (match ast2opt with
          | none => findTree
          | some t => t))
    (candidates db asts rewrite) sys_maxint

/-- The tables created by `DBConnection.create_schema`: the single
`Rewrites` table. -/
def dbTables : List String :=
  ["Rewrites"]

/-- Modelled from the spec's logical store contract (section 6): a SELECT
over the rows of the store filtered on the first column.  Naming a table
absent from the schema is the sqlite `OperationalError`, surfaced directly
to the caller. -/
def sqlSelectPairs (table : String) (rows : List (String × String)) (s1 : String) :
    Except String (List (String × String)) :=
  if table ∈ dbTables then Except.ok (rows.filter (fun r => r.1 = s1))
  else Except.error ("no such table: " ++ table)

/-- Embeds `DBConnection.get_rewrite_templates` from
`eval/extract_rewrites.py`: the result set starts as `set([s1])` and adds
every `s2` produced by `SELECT s1, s2 FROM Rewrit7es WHERE s1 = ?` — the
table name is spelled `Rewrit7es` exactly as in the source line 90. -/
def get_rewrite_templates (rows : List (String × String)) (s1 : String) :
    Except String (List String) :=
  match sqlSelectPairs "Rewrit7es" rows s1 with
  | Except.ok rs => Except.ok (s1 :: rs.map (fun r => r.2))
  | Except.error e => Except.error e

/-- Embeds `DBConnection.add_rewrite` from `eval/extract_rewrites.py`: an
unconditional `INSERT INTO Rewrites (s1, s2) VALUES (?, ?)`.  The table is
created with no uniqueness constraint, so the insert appends a row as-is. -/
def add_rewrite (rows : List (String × String)) (pair : String × String) :
    List (String × String) :=
  rows ++ [pair]

/-- Embeds `DBConnection.exist_rewrite` from `eval/extract_rewrites.py`:
`SELECT 1 FROM Rewrites WHERE s1 = ? AND s2 = ?` yields a row iff the exact
pair is stored. -/
def exist_rewrite (rows : List (String × String)) (pair : String × String) : Bool :=
  rows.contains pair

/-- Embeds the guarded insert performed at the call site in
`extract_rewrites` step 4: `if not db.exist_rewrite(pair):
db.add_rewrite(pair)`. -/
def guarded_add_rewrite (rows : List (String × String)) (pair : String × String) :
    List (String × String) :=
  if exist_rewrite rows pair then rows else add_rewrite rows pair

/-- Embeds one comparison of the cluster-merge loop in `extract_rewrites`
(step 2 of the source): the state is the current list of template sets
(indexed by group key position) together with the set of merged-away
indices.  When group `i` and group `j` share at least two templates, group
`i`'s full template set is unioned into group `j` and `i` is marked
merged. -/
def mergePair (st : List (Finset String) × Finset ℕ) (i j : ℕ) :
    List (Finset String) × Finset ℕ :=
  if 2 ≤ ((st.1.getD i ∅) ∩ (st.1.getD j ∅)).card then
    (st.1.set j (st.1.getD j ∅ ∪ st.1.getD i ∅), insert i st.2)
  else st

/-- Embeds the full double loop of `extract_rewrites` step 2: `i` runs over
all group positions first to last, `j` over `i+1` to the last, threading the
mutated group sets and the merged-index set. -/
def mergeGroups (groups : List (Finset String)) :
    List (Finset String) × Finset ℕ :=
  (List.range groups.length).foldl
    (fun st i =>
      (List.range' (i + 1) (groups.length - (i + 1))).foldl
        (fun st2 j => mergePair st2 i j) st)
    (groups, ∅)

/-- Embeds step 3 of `extract_rewrites`: the group positions that survive
into the final `rewrites` map are exactly those not marked merged. -/
def survivorsIdx (groups : List (Finset String)) : List ℕ :=
  (List.range groups.length).filter (fun i => ! decide (i ∈ (mergeGroups groups).2))

/-- Stable insertion into a list sorted descending by `key` (ties keep the
existing element first, as Python's stable `sorted` does). -/
def insertDesc (key : α → Nat) (a : α) : List α → List α
  | [] => [a]
  | b :: l => if key b < key a then a :: b :: l else b :: insertDesc key a l

/-- Stable descending sort by `key`: the model of Python's
`sorted(..., key=len, reverse=True)`.  Elements are inserted left to right,
and `insertDesc` places an element after every earlier element of equal key,
so ties keep their original relative order exactly as Python's stable sort
does. -/
def sortDesc (key : α → Nat) (l : List α) : List α :=
  l.foldl (fun acc a => insertDesc key a acc) []

/-- One emission attempt of `extract_rewrites` step 4: skip equal templates,
then the guarded insert (`exist_rewrite` check before `add_rewrite`). -/
def emit_pair (db : List (String × String)) (t1 t2 : String) :
    List (String × String) :=
  if t1 = t2 then db else guarded_add_rewrite db (t1, t2)

/-- The inner loop of step 4: for a fixed `cm_temp1 = t1`, attempt to emit
`(t1, t2)` for every `cm_temp2 = t2` in the group. -/
def emit_row (db : List (String × String)) (t1 : String) (ts : List String) :
    List (String × String) :=
  ts.foldl (fun db2 t2 => emit_pair db2 t1 t2) db

/-- The double loop of step 4 over one group's template list: for every
`cm_temp1` and every `cm_temp2` in the group, attempt to emit the ordered
pair. -/
def emit_group (db : List (String × String)) (ts : List String) :
    List (String × String) :=
  ts.foldl (fun db1 t1 => emit_row db1 t1 ts) db

/-- Embeds step 4 of `extract_rewrites`: the surviving groups (given as
their template lists) are sorted by size, descending and stable; the slice
`[:10]` — the literal 10 of the source — is kept; every kept group with at
least two templates emits all its ordered template pairs through the guarded
insert. -/
def step4_emit (groups : List (List String)) (db : List (String × String)) :
    List (String × String) :=
  ((sortDesc (fun g => g.length) groups).take 10).foldl
    (fun db1 g => if 2 ≤ g.length then emit_group db1 g else db1) db

/-- Step 4 as the spec words it (section 4.5 step 4): identical emission,
but with the top-N cutoff exposed as the configurable parameter `N` instead
of a hardwired constant.  This is the spec-side definition used to compare
against `step4_emit`. -/
def step4_emitN (N : Nat) (groups : List (List String)) (db : List (String × String)) :
    List (String × String) :=
  ((sortDesc (fun g => g.length) groups).take N).foldl
    (fun db1 g => if 2 ≤ g.length then emit_group db1 g else db1) db

/-- Two concrete NL groups sharing two templates, used to exercise the
cluster-merge step on a concrete state. -/
def demoGroups : List (Finset String) :=
  [{"a", "b", "c"}, {"b", "c"}]

/-- Eleven surviving two-template groups: a concrete extractor input
exhibiting the hardwired `[:10]` slice of step 4 (the eleventh group is cut
off even though a configurable top-N of 11 would keep it). -/
def cexGroups : List (List String) :=
  [["a0", "b0"], ["a1", "b1"], ["a2", "b2"], ["a3", "b3"], ["a4", "b4"],
   ["a5", "b5"], ["a6", "b6"], ["a7", "b7"], ["a8", "b8"], ["a9", "b9"],
   ["a10", "b10"]]

theorem runMin_nil (f : α → Nat) (init : Nat) : runMin f [] init = init :=
  rfl

theorem runMin_cons (f : α → Nat) (b : α) (l : List α) (init : Nat) :
    runMin f (b :: l) init = runMin f l (if f b < init then f b else init) :=
  rfl

theorem runMin_le_init (f : α → Nat) (l : List α) (init : Nat) :
    runMin f l init ≤ init := by
  induction l generalizing init with
  | nil => simp [runMin_nil]
  | cons b l ih =>
    rw [runMin_cons]
    refine le_trans (ih (if f b < init then f b else init)) ?_
    split <;> omega

theorem runMin_le_mem (f : α → Nat) (l : List α) (init : Nat) (a : α) :
    a ∈ l → runMin f l init ≤ f a := by
  induction l generalizing init with
  | nil => intro ha; cases ha
  | cons b l ih =>
    intro ha
    rw [runMin_cons]
    rcases List.mem_cons.mp ha with h | h
    · subst h
      refine le_trans (runMin_le_init f l _) ?_
      split <;> omega
    · exact ih _ h

theorem runMin_attains (f : α → Nat) (l : List α) (init : Nat) :
    runMin f l init = init ∨ ∃ a ∈ l, runMin f l init = f a := by
  induction l generalizing init with
  | nil => exact Or.inl rfl
  | cons b l ih =>
    rw [runMin_cons]
    rcases ih (if f b < init then f b else init) with h | ⟨a, ha, he⟩
    · rw [h]
      by_cases hb : f b < init
      · exact Or.inr ⟨b, by simp, by simp [hb]⟩
      · exact Or.inl (by simp [hb])
    · exact Or.inr ⟨a, by simp [ha], he⟩

theorem foldl_append_keeps (g : Node → List Node) (a : Node) :
    ∀ (l : List Node) (acc : List Node), a ∈ acc →
      a ∈ l.foldl (fun acc2 x => acc2 ++ g x) acc := by
  intro l
  induction l with
  | nil => intro acc ha; exact ha
  | cons b l ih =>
    intro acc ha
    exact ih (acc ++ g b) (List.mem_append_left _ ha)

theorem foldl_append_mem (g : Node → List Node) (a : Node) (hg : ∀ x, x ∈ g x) :
    ∀ (l : List Node) (acc : List Node), a ∈ l →
      a ∈ l.foldl (fun acc2 x => acc2 ++ g x) acc := by
  intro l
  induction l with
  | nil => intro acc ha; cases ha
  | cons b l ih =>
    intro acc ha
    rcases List.mem_cons.mp ha with h | h
    · subst h
      exact foldl_append_keeps g a l (acc ++ g a) (List.mem_append_right _ (hg a))
    · exact ih (acc ++ g b) h

theorem mem_db_get_rewrites (db : List (String × String)) (ast : Node) :
    ast ∈ db_get_rewrites db ast := by
  simp [db_get_rewrites]

theorem mem_get_rewrites_union (db : List (String × String)) (asts : List Node)
    (a : Node) (ha : a ∈ asts) : a ∈ get_rewrites_union db asts :=
  foldl_append_mem (db_get_rewrites db) a (mem_db_get_rewrites db) asts [] ha

theorem emit_pair_keeps (db : List (String × String)) (t1 t2 : String)
    (p : String × String) (hp : p ∈ db) : p ∈ emit_pair db t1 t2 := by
  unfold emit_pair guarded_add_rewrite add_rewrite
  split
  · exact hp
  · split
    · exact hp
    · exact List.mem_append_left _ hp

theorem emit_pair_adds (db : List (String × String)) (t1 t2 : String)
    (hne : t1 ≠ t2) : (t1, t2) ∈ emit_pair db t1 t2 := by
  unfold emit_pair guarded_add_rewrite add_rewrite
  rw [if_neg hne]
  split
  · next hex => exact List.mem_of_elem_eq_true hex
  · exact List.mem_append_right _ (by simp)

theorem emit_row_keeps (t1 : String) (p : String × String) :
    ∀ (ts : List String) (db : List (String × String)), p ∈ db →
      p ∈ emit_row db t1 ts := by
  intro ts
  induction ts with
  | nil => intro db hp; exact hp
  | cons t ts ih =>
    intro db hp
    exact ih (emit_pair db t1 t) (emit_pair_keeps db t1 t p hp)

theorem emit_row_adds (t1 t2 : String) (hne : t1 ≠ t2) :
    ∀ (ts : List String) (db : List (String × String)), t2 ∈ ts →
      (t1, t2) ∈ emit_row db t1 ts := by
  intro ts
  induction ts with
  | nil => intro db h2; cases h2
  | cons t ts ih =>
    intro db h2
    rcases List.mem_cons.mp h2 with h | h
    · subst h
      exact emit_row_keeps t1 (t1, t2) ts (emit_pair db t1 t2)
        (emit_pair_adds db t1 t2 hne)
    · exact ih (emit_pair db t1 t) h

theorem emit_group_fold_keeps (ts : List String) (p : String × String) :
    ∀ (l : List String) (db : List (String × String)), p ∈ db →
      p ∈ l.foldl (fun db1 t1 => emit_row db1 t1 ts) db := by
  intro l
  induction l with
  | nil => intro db hp; exact hp
  | cons t l ih =>
    intro db hp
    exact ih (emit_row db t ts) (emit_row_keeps t p ts db hp)

theorem emit_group_keeps (db : List (String × String)) (ts : List String)
    (p : String × String) (hp : p ∈ db) : p ∈ emit_group db ts :=
  emit_group_fold_keeps ts p ts db hp

theorem emit_group_adds (ts : List String) (t1 t2 : String)
    (h2 : t2 ∈ ts) (hne : t1 ≠ t2) :
    ∀ (l : List String) (db : List (String × String)), t1 ∈ l →
      (t1, t2) ∈ l.foldl (fun db1 x => emit_row db1 x ts) db := by
  intro l
  induction l with
  | nil => intro db h1; cases h1
  | cons x l ih =>
    intro db h1
    rcases List.mem_cons.mp h1 with h | h
    · subst h
      exact emit_group_fold_keeps ts (t1, t2) l (emit_row db t1 ts)
        (emit_row_adds t1 t2 hne ts db h2)
    · exact ih (emit_row db x ts) h

theorem step4_fold_keeps (p : String × String) :
    ∀ (L : List (List String)) (db : List (String × String)), p ∈ db →
      p ∈ L.foldl (fun db1 g => if 2 ≤ g.length then emit_group db1 g else db1) db := by
  intro L
  induction L with
  | nil => intro db hp; exact hp
  | cons g L ih =>
    intro db hp
    refine ih _ ?_
    show p ∈ if 2 ≤ g.length then emit_group db g else db
    split
    · exact emit_group_keeps db g p hp
    · exact hp

theorem step4_fold_adds (g : List String) (t1 t2 : String)
    (hcard : 2 ≤ g.length) (h1 : t1 ∈ g) (h2 : t2 ∈ g) (hne : t1 ≠ t2) :
    ∀ (L : List (List String)) (db : List (String × String)), g ∈ L →
      (t1, t2) ∈ L.foldl (fun db1 x => if 2 ≤ x.length then emit_group db1 x else db1) db := by
  intro L
  induction L with
  | nil => intro db hg; cases hg
  | cons x L ih =>
    intro db hg
    rcases List.mem_cons.mp hg with h | h
    · subst h
      refine step4_fold_keeps (t1, t2) L _ ?_
      show (t1, t2) ∈ if 2 ≤ g.length then emit_group db g else db
      rw [if_pos hcard]
      exact emit_group_adds g t1 t2 h2 hne g db h1
    · exact ih _ h

theorem getD_set_ne (l : List (Finset String)) (i j : ℕ) (a : Finset String)
    (h : i ≠ j) : (l.set j a).getD i ∅ = l.getD i ∅ := by
  simp [List.getD_eq_getElem?_getD, List.getElem?_set]
  rw [if_neg (fun e => h e.symm)]

/-! The claim theorems. -/

/-- Claim C1 (evaluation of the code at the failing scenario): on the spec's
concrete scenario B — prediction rendering as `find . -print`, reference
rendering as `find .` — the exact-match normalization of
`ignore_differences` removes the substring `-print` but leaves the space
that preceded it, producing `"find . "`, which does not string-equal
`"find ."`; so the template comparison of `one_match` / `template_match`
returns `false`, not `true` as the spec requires for the ignorable
`-print` flag. -/
theorem scenarioB_print_flag_residue :
    ignore_differences "find . -print" = "find . " ∧
    ignore_differences "find ." = "find ." ∧
    template_match_rendered "find . -print" "find ." = false := by
  decide

/-- Claim C2: expanding the references through the rewrite store can only
lower the minimum distance, because `DBConnection.get_rewrites` always
includes the original tree in its result set, so the candidate list under
`rewrite=True` contains every reference compared under `rewrite=False`. -/
theorem min_dist_rewrite_le_no_rewrite (db : List (String × String))
    (asts : List Node) (p : Option Node) (m : Bool) :
    min_dist db asts p true m ≤ min_dist db asts p false m := by
  unfold min_dist
  generalize (match p with | none => findTree | some t => t) = t0
  have hc1 : candidates db asts true = get_rewrites_union db asts := rfl
  have hc2 : candidates db asts false = asts := rfl
  rw [hc1, hc2]
  rcases runMin_attains (fun a1 => dist_for m a1 t0) asts sys_maxint with h | ⟨a, ha, he⟩
  · rw [h]
    exact runMin_le_init _ _ _
  · rw [he]
    exact runMin_le_mem _ _ sys_maxint a (mem_get_rewrites_union db asts a ha)

/-- Claim C3 (evaluation of the code at the failing input): the SELECT in
`DBConnection.get_rewrite_templates` names the table `Rewrit7es`, which the
schema (`create_schema`, table `Rewrites`) never creates, so the lookup
raises the sqlite no-such-table `OperationalError` instead of returning the
stored single-hop rewrites — here, on a store holding the scenario C pair
`("find . -iname ARG", "find . -name ARG")`. -/
theorem get_rewrite_templates_table_typo :
    get_rewrite_templates [("find . -iname ARG", "find . -name ARG")]
        "find . -iname ARG"
      = Except.error "no such table: Rewrit7es" := by
  rfl

/-- Claim C4: `local_dist` returns exactly the section 4.2 cost table — 0 on
equal labels, 0 when one label is empty and the other is an ignorable flag
(`FLAG_-ls`, `FLAG_-print`, `FLAG_-print0`), 0 on all twelve ordered synonym
pairs over {`-name`, `-iname`, `-regex`, `-iregex`}, 0 when both labels are
argument tags under skip-argument mode, and 1 otherwise; in particular
cost(`FLAG_-name`, `FLAG_-iname`) = 0, cost(`FLAG_-name`, `FLAG_-user`) = 1
and cost(`FLAG_-print`, ` `) = 0 follow by instantiation. -/
theorem local_dist_is_cost_table (s1 s2 : String) (skip : Bool) :
    local_dist s1 s2 skip = costSpec s1 s2 skip :=
  local_dist_eq_costSpec s1 s2 skip

/-- Claim C5: the tree edit distance of any well-formed tree to itself is 0
in both comparison modes, since the relabel cost of equal labels is 0 and
the identity alignment is available to the minimization. -/
theorem ted_identity (t : Node) : str_dist t t = 0 ∧ temp_dist t t = 0 :=
  ⟨fdist_self false [t], fdist_self true [t]⟩

/-- Claim C6: `min_dist` is total in its prediction argument — a null
(`None`) or unparsable prediction is replaced by the fixed fallback tree
`bash_parser("find")`, and on a non-empty reference list the result is the
ordinary (finite, non-negative) minimum over candidate distances, bounded by
the distance from any reference to the fallback tree; no exception is
raised. -/
theorem min_dist_null_prediction_total (db : List (String × String))
    (asts : List Node) (rw m : Bool) (a : Node) (ha : a ∈ asts) :
    min_dist db asts none rw m = min_dist db asts (some findTree) rw m ∧
    min_dist db asts none rw m ≤ dist_for m a findTree := by
  constructor
  · rfl
  · cases rw with
    | false => exact runMin_le_mem _ asts sys_maxint a ha
    | true => exact runMin_le_mem _ _ sys_maxint a (mem_get_rewrites_union db asts a ha)

/-- Witness for C6 at a concrete input: a single reference equal to the
fallback tree itself. -/
theorem min_dist_null_prediction_total_witness :
    findTree ∈ [findTree] ∧
    (min_dist [] [findTree] none true false
        = min_dist [] [findTree] (some findTree) true false ∧
      min_dist [] [findTree] none true false ≤ dist_for false findTree findTree) :=
  ⟨by simp, min_dist_null_prediction_total [] [findTree] true false findTree (by simp)⟩

/-- Counterexample to claim C7 as stated: `DBConnection.add_rewrite` is an
unconditional INSERT into a table with no uniqueness constraint, so invoking
it on an already-stored pair appends a second copy of the row rather than
leaving the store unchanged. -/
theorem add_rewrite_duplicate_adds_row :
    exist_rewrite [("find . -iname ARG", "find . -name ARG")]
        ("find . -iname ARG", "find . -name ARG") = true ∧
      add_rewrite [("find . -iname ARG", "find . -name ARG")]
          ("find . -iname ARG", "find . -name ARG")
        ≠ [("find . -iname ARG", "find . -name ARG")] := by
  decide

/-- Claim C7 as amended: the idempotent insert lives at the extraction call
site, whose guarded pattern checks `exist_rewrite` before `add_rewrite`;
when the exact pair is already stored, the guarded insert leaves the stored
rows unchanged. -/
theorem guarded_insert_idempotent (rows : List (String × String))
    (pair : String × String) (h : exist_rewrite rows pair = true) :
    guarded_add_rewrite rows pair = rows := by
  simp [guarded_add_rewrite, h]

/-- Witness for the amended C7 at a concrete stored pair. -/
theorem guarded_insert_idempotent_witness :
    exist_rewrite [("a", "b")] ("a", "b") = true ∧
      guarded_add_rewrite [("a", "b")] ("a", "b") = [("a", "b")] :=
  ⟨by decide, guarded_insert_idempotent [("a", "b")] ("a", "b") (by decide)⟩

/-- Claim C8: one comparison of the cluster-merge loop at positions
`i < j` — when the two groups share at least two templates, group `i`'s full
set is unioned into group `j` and `i` is marked merged; otherwise nothing
changes; group `i`'s own set is never modified and `j` is never newly marked
(one-directional merge); and every merged-away index is excluded from the
surviving-group positions emitted by step 3. -/
theorem cluster_merge_spec (gs : List (Finset String)) (m : Finset ℕ) (i j : ℕ)
    (groups : List (Finset String)) (hij : i < j) :
    (2 ≤ ((gs.getD i ∅) ∩ (gs.getD j ∅)).card →
      mergePair (gs, m) i j = (gs.set j (gs.getD j ∅ ∪ gs.getD i ∅), insert i m)) ∧
    (¬ 2 ≤ ((gs.getD i ∅) ∩ (gs.getD j ∅)).card → mergePair (gs, m) i j = (gs, m)) ∧
    ((mergePair (gs, m) i j).1.getD i ∅ = gs.getD i ∅) ∧
    (j ∈ (mergePair (gs, m) i j).2 ↔ j ∈ m) ∧
    (∀ k, k ∈ (mergeGroups groups).2 → k ∉ survivorsIdx groups) := by
  have hne : i ≠ j := Nat.ne_of_lt hij
  refine ⟨?_, ?_, ?_, ?_, ?_⟩
  · intro h
    unfold mergePair
    split
    · rfl
    · next hcond => exact absurd h hcond
  · intro h
    unfold mergePair
    split
    · next hcond => exact absurd hcond h
    · rfl
  · unfold mergePair
    split
    · exact getD_set_ne gs i j _ hne
    · rfl
  · unfold mergePair
    split
    · simp [Finset.mem_insert, Ne.symm hne]
    · exact Iff.rfl
  · intro k hk hmem
    simp [survivorsIdx, List.mem_filter] at hmem
    exact hmem.2 hk

/-- Witness for C8 at a concrete state: two groups sharing the two templates
`b` and `c`, compared at positions 0 < 1. -/
theorem cluster_merge_spec_witness :
    (0 < 1) ∧
    ((2 ≤ ((demoGroups.getD 0 ∅) ∩ (demoGroups.getD 1 ∅)).card →
        mergePair (demoGroups, ∅) 0 1
          = (demoGroups.set 1 (demoGroups.getD 1 ∅ ∪ demoGroups.getD 0 ∅), insert 0 ∅)) ∧
      (¬ 2 ≤ ((demoGroups.getD 0 ∅) ∩ (demoGroups.getD 1 ∅)).card →
        mergePair (demoGroups, ∅) 0 1 = (demoGroups, ∅)) ∧
      ((mergePair (demoGroups, ∅) 0 1).1.getD 0 ∅ = demoGroups.getD 0 ∅) ∧
      (1 ∈ (mergePair (demoGroups, ∅) 0 1).2 ↔ 1 ∈ (∅ : Finset ℕ)) ∧
      (∀ k, k ∈ (mergeGroups demoGroups).2 → k ∉ survivorsIdx demoGroups)) :=
  ⟨by decide, cluster_merge_spec demoGroups ∅ 0 1 demoGroups (by decide)⟩

set_option maxRecDepth 40000 in
/-- Counterexample to claim C9 as stated: the top-N cutoff is the hardwired
literal `10`, not a configurable parameter — on eleven surviving
two-template groups, the spec-side emission with N = 11 emits the eleventh
group's pair `("a10", "b10")` while the source's emission does not. -/
theorem step4_topN_hardwired :
    ("a10", "b10") ∈ step4_emitN 11 cexGroups [] ∧
      ("a10", "b10") ∉ step4_emit cexGroups [] := by
  decide

/-- Claim C9 as amended: for every surviving group with at least two
templates that lies within the top-10 largest groups (10 being the hardwired
cutoff of the source, not a configurable parameter), extraction emits every
ordered pair of distinct templates of the group into the store. -/
theorem step4_emits_all_ordered_pairs (groups : List (List String))
    (db : List (String × String)) (g : List String) (t1 t2 : String)
    (hg : g ∈ (sortDesc (fun x => x.length) groups).take 10)
    (hcard : 2 ≤ g.length) (h1 : t1 ∈ g) (h2 : t2 ∈ g) (hne : t1 ≠ t2) :
    (t1, t2) ∈ step4_emit groups db :=
  step4_fold_adds g t1 t2 hcard h1 h2 hne _ db hg

/-- Witness for the amended C9 at a concrete single group. -/
theorem step4_emits_all_ordered_pairs_witness :
    (["a", "b"] ∈ (sortDesc (fun x : List String => x.length) [["a", "b"]]).take 10 ∧
      2 ≤ (["a", "b"] : List String).length ∧ "a" ∈ (["a", "b"] : List String) ∧
      "b" ∈ (["a", "b"] : List String) ∧ "a" ≠ "b") ∧
    ("a", "b") ∈ step4_emit [["a", "b"]] [] :=
  ⟨by decide,
    step4_emits_all_ordered_pairs [["a", "b"]] [] ["a", "b"] "a" "b" (by decide)
      (by decide) (by decide) (by decide) (by decide)⟩

/-- Claim C10: called on an empty reference list, `min_dist` performs no
comparison and returns the initialization value of its running minimum, the
`sys.maxint` sentinel (2^63 - 1 on the 64-bit reference runtime), in every
combination of prediction, rewrite flag and comparison mode. -/
theorem min_dist_empty_references (db : List (String × String)) (p : Option Node)
    (rw m : Bool) : min_dist db [] p rw m = 2 ^ 63 - 1 := by
  cases rw <;> rfl

end NLBash
